import Mathlib

/-!
Shallow embedding of the Talkie real-time hub (Go sources:
`backend/internal/ws` — Hub, Client read/write pumps, message types —
`backend/internal/db` — Store.ListMessages / SaveMessage / membership
lookups — and `backend/internal/httpapi` — Server.roomWebSocket), together
with proofs about the registry, call-presence tracker, broadcast
backpressure, session bootstrap and history listing.

Modelling conventions:
* `uuid.UUID` values are modelled as `Nat` (uuid.String() is injective, so
  a `Participant.ID` is modelled by the user id itself).
* Go maps are modelled as association lists (`List (Nat × β)`) with
  lookup / overwrite / delete operations mirroring map indexing,
  assignment and `delete`; Go map iteration order is modelled as list
  order (the claims proved here do not depend on iteration order).
* A Go channel send under `select { case ch <- v: default: ... }` succeeds
  iff the bounded buffer has free space; a plain (blocking) send is
  modelled as an enqueue.
* Database state (rooms, memberships, users, persisted messages) is an
  explicit `Store` value; `created_at` / serial ids are assigned
  monotonically at persistence time, so `ORDER BY created_at DESC` over a
  room's rows is the reverse of the persistence-ordered log.
-/

namespace Talkie

/-- Lookup in an association-list model of a Go map (`m[k]`, second result
of the comma-ok idiom via `Option`). -/
def mlookup {β : Type} (m : List (Nat × β)) (k : Nat) : Option β :=
  (m.find? (fun p => p.1 == k)).map (fun p => p.2)

/-- Go map assignment `m[k] = v`: overwrite the binding if the key is
present, otherwise add it. -/
def mset {β : Type} (m : List (Nat × β)) (k : Nat) (v : β) : List (Nat × β) :=
  if (mlookup m k).isSome then
    m.map (fun p => if p.1 == k then (p.1, v) else p)
  else
    m ++ [(k, v)]

/-- Go `delete(m, k)`. -/
def mdel {β : Type} (m : List (Nat × β)) (k : Nat) : List (Nat × β) :=
  m.filter (fun p => p.1 != k)

theorem mlookup_nil {β : Type} (k : Nat) : mlookup ([] : List (Nat × β)) k = none := rfl

theorem mlookup_cons {β : Type} (p : Nat × β) (m : List (Nat × β)) (k : Nat) :
    mlookup (p :: m) k = if p.1 = k then some p.2 else mlookup m k := by
  by_cases h : p.1 = k
  · simp [mlookup, List.find?_cons, h]
  · simp [mlookup, List.find?_cons, h]

theorem mlookup_append {β : Type} (m₁ m₂ : List (Nat × β)) (k : Nat) :
    mlookup (m₁ ++ m₂) k = ((mlookup m₁ k).or (mlookup m₂ k)) := by
  induction m₁ with
  | nil => simp [mlookup_nil, mlookup]
  | cons p m ih =>
      by_cases h : p.1 = k
      · simp [mlookup_cons, h, Option.or]
      · simpa [mlookup_cons, h] using ih

/-- Overwriting every binding of `k` leaves lookups of other keys alone. -/
theorem mlookup_mapset_of_ne {β : Type} (m : List (Nat × β)) (k k' : Nat) (v : β)
    (h : k' ≠ k) :
    mlookup (m.map (fun p => if p.1 == k then (p.1, v) else p)) k' = mlookup m k' := by
  have hk' : ¬ (k = k') := fun hh => h hh.symm
  induction m with
  | nil => rfl
  | cons p m ih =>
      by_cases hp : p.1 = k
      · simpa [mlookup_cons, hp, hk'] using ih
      · by_cases hpk : p.1 = k'
        · simp [mlookup_cons, hp, hpk, h]
        · simpa [mlookup_cons, hp, hpk] using ih

theorem mlookup_mapset_self {β : Type} (m : List (Nat × β)) (k : Nat) (v : β)
    (h : (mlookup m k).isSome) :
    mlookup (m.map (fun p => if p.1 == k then (p.1, v) else p)) k = some v := by
  induction m with
  | nil => simp [mlookup_nil] at h
  | cons p m ih =>
      by_cases hp : p.1 = k
      · simp [mlookup_cons, hp]
      · have h' : (mlookup m k).isSome := by simpa [mlookup_cons, hp] using h
        simpa [mlookup_cons, hp] using ih h'

theorem mlookup_mset_self {β : Type} (m : List (Nat × β)) (k : Nat) (v : β) :
    mlookup (mset m k v) k = some v := by
  unfold mset
  by_cases h : (mlookup m k).isSome
  · simpa [h] using mlookup_mapset_self m k v h
  · have hnone : mlookup m k = none := by
      rcases hv : mlookup m k with _ | w
      · rfl
      · rw [hv] at h; simp at h
    simp [h, mlookup_append, hnone, mlookup_cons, Option.or]

theorem mlookup_mset_of_ne {β : Type} (m : List (Nat × β)) (k k' : Nat) (v : β)
    (h : k' ≠ k) : mlookup (mset m k v) k' = mlookup m k' := by
  have hk' : ¬ (k = k') := fun hh => h hh.symm
  unfold mset
  by_cases hf : (mlookup m k).isSome
  · simpa [hf] using mlookup_mapset_of_ne m k k' v h
  · rw [if_neg hf, mlookup_append]
    have h1 : mlookup [(k, v)] k' = none := by
      rw [mlookup_cons, if_neg hk']; rfl
    rw [h1]
    cases hm : mlookup m k' <;> rfl

theorem mlookup_mdel_self {β : Type} (m : List (Nat × β)) (k : Nat) :
    mlookup (mdel m k) k = none := by
  unfold mdel
  induction m with
  | nil => rfl
  | cons p m ih =>
      by_cases hp : p.1 = k
      · simpa [List.filter_cons, hp] using ih
      · simpa [List.filter_cons, hp, mlookup_cons] using ih

theorem mlookup_mdel_of_ne {β : Type} (m : List (Nat × β)) (k k' : Nat)
    (h : k' ≠ k) : mlookup (mdel m k) k' = mlookup m k' := by
  unfold mdel
  induction m with
  | nil => rfl
  | cons p m ih =>
      by_cases hp : p.1 = k
      · have hk' : ¬ (k = k') := fun hh => h hh.symm
        simpa [List.filter_cons, hp, mlookup_cons, hk'] using ih
      · by_cases hpk : p.1 = k'
        · simp [List.filter_cons, hp, mlookup_cons, hpk, h]
        · simpa [List.filter_cons, hp, mlookup_cons, hpk, h] using ih

theorem mset_ne_nil {β : Type} (m : List (Nat × β)) (k : Nat) (v : β) :
    mset m k v ≠ [] := by
  unfold mset
  by_cases hf : (mlookup m k).isSome
  · rw [if_pos hf]
    intro hc
    rcases m with _ | ⟨p, m⟩
    · simp [mlookup_nil] at hf
    · simp at hc
  · rw [if_neg hf]
    simp

theorem mlookup_of_mdel_some {β : Type} (m : List (Nat × β)) (k k' : Nat) (v : β)
    (h : mlookup (mdel m k) k' = some v) : mlookup m k' = some v := by
  by_cases hk : k' = k
  · rw [hk, mlookup_mdel_self] at h; cases h
  · rwa [mlookup_mdel_of_ne m k k' hk] at h

/-- Every element of an association list has a successful lookup at its key
(the first binding of that key is found, not necessarily the element itself). -/
theorem mlookup_isSome_of_mem {β : Type} (m : List (Nat × β)) (p : Nat × β)
    (h : p ∈ m) : (mlookup m p.1).isSome := by
  induction m with
  | nil => cases h
  | cons q m ih =>
      rcases List.mem_cons.mp h with h | h
      · simp [mlookup_cons, h]
      · by_cases hq : q.1 = p.1
        · simp [mlookup_cons, hq]
        · simpa [mlookup_cons, hq] using ih h

theorem mdel_eq_nil {β : Type} (m : List (Nat × β)) (k : Nat)
    (h : ∀ p ∈ m, p.1 = k) : mdel m k = [] := by
  unfold mdel
  rw [List.filter_eq_nil_iff]
  intro p hp
  simp [h p hp]

/-- Wire-protocol participant record (`ws.Participant`); `ID` carries the
user id (in Go, `userID.String()`). -/
structure Participant where
  id : Nat
  username : String
deriving DecidableEq

/-- Persisted chat message (`db.Message`); ids and `created_at` are
assigned serially at persistence time. -/
structure Message where
  id : Nat
  roomId : Nat
  userId : Nat
  username : String
  content : String
  messageType : String
  mediaURL : String
  createdAt : Nat
deriving DecidableEq

/-- Wire form of a persisted message (`ws.MessagePayload`). -/
structure MessagePayload where
  id : Nat
  roomId : Nat
  userId : Nat
  username : String
  content : String
  messageType : String
  mediaURL : String
  createdAt : Nat
deriving DecidableEq

/-- `ws.PayloadFromMessage`. -/
def PayloadFromMessage (m : Message) : MessagePayload :=
  { id := m.id, roomId := m.roomId, userId := m.userId, username := m.username,
    content := m.content, messageType := m.messageType, mediaURL := m.mediaURL,
    createdAt := m.createdAt }

/-- Inbound protocol frame (`ws.IncomingMessage`). -/
structure IncomingMessage where
  type : String
  content : String
deriving DecidableEq

/-- Outbound protocol frame (`ws.OutgoingMessage`): a kind tag plus the
fields relevant to that kind. -/
structure OutgoingMessage where
  type : String
  message : Option MessagePayload := none
  participants : List Participant := []
  callUsers : List Participant := []
  messages : List MessagePayload := []
deriving DecidableEq

/-- Immutable identity of a `ws.Client`: `cid` models the Go pointer
identity (the key of the hub's per-room set); the remaining fields are set
once at construction in `roomWebSocket` and never mutated. -/
structure Client where
  cid : Nat
  roomId : Nat
  userId : Nat
  username : String
deriving DecidableEq

/-- The shared hub state (`ws.Hub`): room registry plus the two
call-presence maps. -/
structure Hub where
  rooms : List (Nat × List Client)
  callCounts : List (Nat × List (Nat × Int))
  callUsers : List (Nat × List (Nat × Participant))
deriving DecidableEq

/-- `ws.NewHub`. -/
def Hub.new : Hub := ⟨[], [], []⟩

/-- `Hub.Add`: insert the client into its room's set, creating the set on
first use. -/
def Hub.add (h : Hub) (c : Client) : Hub :=
  let clients := (mlookup h.rooms c.roomId).getD []
  let clients' := if c ∈ clients then clients else clients ++ [c]
  { h with rooms := mset h.rooms c.roomId clients' }

/-- `Hub.addCallLocked`. -/
def Hub.addCallLocked (h : Hub) (roomId userId : Nat) (username : String) : Hub :=
  let counts := (mlookup h.callCounts roomId).getD []
  let users := (mlookup h.callUsers roomId).getD []
  let counts' := mset counts userId ((mlookup counts userId).getD 0 + 1)
  let users' := mset users userId ⟨userId, username⟩
  { h with callCounts := mset h.callCounts roomId counts',
           callUsers := mset h.callUsers roomId users' }

/-- `Hub.removeCallLocked`: decrement the user's reference count (reading a
missing key as 0, as Go map indexing does); at zero or below, delete the
user's count and display record; when the room's count map empties, delete
the room's entries from both maps. -/
def Hub.removeCallLocked (h : Hub) (roomId userId : Nat) : Hub :=
  match mlookup h.callCounts roomId with
  | none => h
  | some counts =>
    let n : Int := (mlookup counts userId).getD 0 - 1
    let counts' := if n ≤ 0 then mdel counts userId else mset counts userId n
    let callUsers' :=
      if n ≤ 0 then
        match mlookup h.callUsers roomId with
        | none => h.callUsers
        | some users => mset h.callUsers roomId (mdel users userId)
      else h.callUsers
    if counts'.isEmpty then
      { h with callCounts := mdel h.callCounts roomId,
               callUsers := mdel callUsers' roomId }
    else
      { h with callCounts := mset h.callCounts roomId counts',
               callUsers := callUsers' }

/-- `Hub.Remove`: drop the client from its room's set, unconditionally run
`removeCallLocked` for its user, then prune the room entry if the set
emptied. -/
def Hub.remove (h : Hub) (c : Client) : Hub :=
  match mlookup h.rooms c.roomId with
  | none => h
  | some clients =>
    let clients' := clients.filter (fun d => decide (d ≠ c))
    let h1 := { h with rooms := mset h.rooms c.roomId clients' }
    let h2 := Hub.removeCallLocked h1 c.roomId c.userId
    if clients'.isEmpty then { h2 with rooms := mdel h2.rooms c.roomId } else h2

/-- `Hub.SetInCall`. -/
def Hub.setInCall (h : Hub) (c : Client) (inCall : Bool) : Hub :=
  if inCall then h.addCallLocked c.roomId c.userId c.username
  else h.removeCallLocked c.roomId c.userId

/-- `Hub.Participants`: snapshot of attached connections' (id, username)
pairs for a room. -/
def Hub.participants (h : Hub) (roomId : Nat) : List Participant :=
  ((mlookup h.rooms roomId).getD []).map (fun c => ⟨c.userId, c.username⟩)

/-- `Hub.CallParticipants`. -/
def Hub.callParticipants (h : Hub) (roomId : Nat) : List Participant :=
  ((mlookup h.callUsers roomId).getD []).map (fun p => p.2)

/-- The set of clients the registry holds for a room (`h.rooms[roomID]`,
with a missing entry read as the empty set, as `Hub.Broadcast` does). -/
def roomClients (h : Hub) (roomId : Nat) : List Client :=
  (mlookup h.rooms roomId).getD []

/-- Call-presence reference count for a (room, user), reading missing
entries as 0. -/
def Hub.callCount (h : Hub) (roomId userId : Nat) : Int :=
  (mlookup ((mlookup h.callCounts roomId).getD []) userId).getD 0

/-- Whether the user has a call-presence display record for the room. -/
def Hub.inCallRecord (h : Hub) (roomId userId : Nat) : Bool :=
  (mlookup ((mlookup h.callUsers roomId).getD []) userId).isSome

/-- Per-connection runtime state: the immutable `Client` identity, the
mutable `InCall` flag, the bounded `Send` buffer (`queue`, capacity `cap`)
and whether the socket has been closed. -/
structure Conn where
  client : Client
  inCall : Bool
  queue : List OutgoingMessage
  cap : Nat
  closed : Bool
deriving DecidableEq

/-- Room-membership row (`db.RoomMember` restricted to the fields the hub
uses). -/
structure RoomMember where
  roomId : Nat
  userId : Nat
  username : String
deriving DecidableEq

/-- The collaborator store's visible state: existing rooms, room
memberships, users and the persisted message log (in persistence order). -/
structure Store where
  rooms : List Nat
  members : List RoomMember
  users : List (Nat × String)
  messages : List Message
deriving DecidableEq

/-- `Store.GetRoomByID`, reduced to the existence test the handler makes of
it (`err == nil`). -/
def Store.getRoomByID (st : Store) (roomId : Nat) : Bool :=
  st.rooms.contains roomId

/-- `Store.IsRoomMember`. -/
def Store.isRoomMember (st : Store) (roomId userId : Nat) : Bool :=
  st.members.any (fun m => m.roomId == roomId && m.userId == userId)

/-- `Store.ListRoomMembers`. -/
def Store.listRoomMembers (st : Store) (roomId : Nat) : List RoomMember :=
  st.members.filter (fun m => m.roomId == roomId)

/-- `Store.ListMessages`: clamp an out-of-range limit to 50, take the
room's messages in descending creation order, apply the limit, then
reverse into oldest-first order. The SQL `ORDER BY created_at DESC LIMIT n`
is modelled as reversing the persistence-ordered per-room log and taking
`n`. -/
def listMessages (msgs : List Message) (roomId : Nat) (limit : Int) : List Message :=
  let lim := if limit ≤ 0 || limit > 200 then 50 else limit
  let roomMsgs := msgs.filter (fun m => m.roomId == roomId)
  ((roomMsgs.reverse).take lim.toNat).reverse

/-- `Store.SaveMessage` (message_type "text", no media): persist a row with
serially assigned id / created_at and resolve the sender's username. -/
def Store.saveMessage (st : Store) (roomId userId : Nat) (content : String) :
    Store × Message :=
  let username := ((st.users.find? (fun p => p.1 == userId)).map (fun p => p.2)).getD ""
  let m : Message :=
    { id := st.messages.length, roomId := roomId, userId := userId,
      username := username, content := content, messageType := "text",
      mediaURL := "", createdAt := st.messages.length }
  ({ st with messages := st.messages ++ [m] }, m)

/-- The whole system: the shared hub, every constructed connection's
runtime state, and the collaborator store. -/
structure Sys where
  hub : Hub
  conns : List Conn
  store : Store
deriving DecidableEq

/-- Effect of one `Hub.Broadcast` call on one connection: non-blocking send
(`select { case c.Send <- payload: default: c.Close() }`) if the connection
is in the target room's set, untouched otherwise. -/
def broadcastOne (clients : List Client) (payload : OutgoingMessage) (c : Conn) : Conn :=
  if c.client ∈ clients then
    if c.queue.length < c.cap then { c with queue := c.queue ++ [payload] }
    else { c with closed := true }
  else c

/-- `Hub.Broadcast` over the system state. -/
def Sys.broadcast (s : Sys) (roomId : Nat) (payload : OutgoingMessage) : Sys :=
  { s with conns := s.conns.map (broadcastOne (roomClients s.hub roomId) payload) }

/-- A plain (blocking) channel send `c.Send <- payload` to the connection
with the given identity, modelled as an enqueue. -/
def Sys.sendTo (s : Sys) (cid : Nat) (payload : OutgoingMessage) : Sys :=
  { s with conns := s.conns.map (fun c =>
      if c.client.cid == cid then { c with queue := c.queue ++ [payload] } else c) }

/-- Mutation of a client's local `InCall` flag (`c.InCall = b` in
`ReadPump`). -/
def Sys.setFlag (s : Sys) (cid : Nat) (b : Bool) : Sys :=
  { s with conns := s.conns.map (fun c =>
      if c.client.cid == cid then { c with inCall := b } else c) }

/-- One iteration of `Client.ReadPump` on a decoded inbound frame: frames
that are not a non-empty chat are routed to the call_join / call_leave
switch (anything else is silently dropped, `continue`); a non-empty chat is
persisted and broadcast. -/
def Sys.readPumpStep (s : Sys) (cid : Nat) (incoming : IncomingMessage) : Sys :=
  match s.conns.find? (fun c => c.client.cid == cid) with
  | none => s
  | some c =>
    if incoming.type != "chat" || incoming.content == "" then
      if incoming.type == "call_join" then
        if c.inCall then s
        else
          let s1 := s.setFlag cid true
          let s2 := { s1 with hub := s1.hub.setInCall c.client true }
          s2.broadcast c.client.roomId
            { type := "call_participants",
              callUsers := s2.hub.callParticipants c.client.roomId }
      else if incoming.type == "call_leave" then
        if c.inCall then
          let s1 := s.setFlag cid false
          let s2 := { s1 with hub := s1.hub.setInCall c.client false }
          s2.broadcast c.client.roomId
            { type := "call_participants",
              callUsers := s2.hub.callParticipants c.client.roomId }
        else s
      else s
    else
      let saved := s.store.saveMessage c.client.roomId c.client.userId incoming.content
      let s1 := { s with store := saved.1 }
      s1.broadcast c.client.roomId
        { type := "chat", message := some (PayloadFromMessage saved.2) }

/-- The deferred cleanup path of `Client.ReadPump` (runs when the read loop
exits for any reason): `Hub.Remove`, broadcast a refreshed chat-participant
snapshot (from `Store.ListRoomMembers`) and a refreshed call-participant
snapshot to the room, then close the socket. -/
def Sys.readPumpCleanup (s : Sys) (cid : Nat) : Sys :=
  match s.conns.find? (fun c => c.client.cid == cid) with
  | none => s
  | some c =>
    let s1 := { s with hub := s.hub.remove c.client }
    let parts := (s1.store.listRoomMembers c.client.roomId).map
      (fun m => Participant.mk m.userId m.username)
    let s2 := s1.broadcast c.client.roomId
      { type := "participants", participants := parts }
    let s3 := s2.broadcast c.client.roomId
      { type := "call_participants",
        callUsers := s2.hub.callParticipants c.client.roomId }
    { s3 with conns := s3.conns.map (fun d =>
        if d.client.cid == cid then { d with closed := true } else d) }

/-- The chat-participant snapshot pushed at bootstrap (from
`Store.ListRoomMembers`). -/
def seedParticipantsMsg (st : Store) (roomId : Nat) : OutgoingMessage :=
  { type := "participants",
    participants := (st.listRoomMembers roomId).map
      (fun m => Participant.mk m.userId m.username) }

/-- The private history snapshot pushed at bootstrap: the most recent 50
persisted messages of the room, oldest-first. -/
def seedHistoryMsg (st : Store) (roomId : Nat) : OutgoingMessage :=
  { type := "history",
    messages := (listMessages st.messages roomId 50).map PayloadFromMessage }

/-- The private call-participant snapshot pushed at bootstrap. -/
def seedCallMsg (h : Hub) (roomId : Nat) : OutgoingMessage :=
  { type := "call_participants", callUsers := h.callParticipants roomId }

/-- The post-upgrade tail of `Server.roomWebSocket`: construct the `Client`
(Send buffer capacity 64), `Hub.Add` it, broadcast a chat-participant
snapshot to the whole room, then send the history snapshot and a
call-participant snapshot to the new connection only. -/
def Sys.attachAndSeed (s : Sys) (roomId userId : Nat) (username : String)
    (cid : Nat) : Sys :=
  let cl : Client := { cid := cid, roomId := roomId, userId := userId,
                       username := username }
  let c : Conn := { client := cl, inCall := false, queue := [], cap := 64,
                    closed := false }
  let s1 : Sys := { s with conns := s.conns ++ [c], hub := s.hub.add cl }
  let s2 := s1.broadcast roomId (seedParticipantsMsg s1.store roomId)
  let s3 := s2.sendTo cid (seedHistoryMsg s2.store roomId)
  s3.sendTo cid (seedCallMsg s3.hub roomId)

/-- Bootstrap rejections of `Server.roomWebSocket`, in check order. -/
inductive WsReject where
  | unauthorized
  | notFound
  | forbidden
deriving DecidableEq

/-- An inbound upgrade request as `Server.roomWebSocket` sees it: the
outcome of token verification (None for a missing/unparseable/invalid
token), the target room id, whether the socket upgrade itself succeeds,
and the identity of the `Client` to be constructed. -/
structure UpgradeRequest where
  token : Option (Nat × String)
  roomId : Nat
  upgradeOk : Bool
  freshCid : Nat
deriving DecidableEq

/-- `Server.roomWebSocket`: verify the token (else 401), room existence
(else 404) and room membership (else 403); only then upgrade and run the
attach-and-seed sequence. A failed upgrade returns without attaching. -/
def Sys.roomWebSocket (s : Sys) (req : UpgradeRequest) : Option WsReject × Sys :=
  match req.token with
  | none => (some .unauthorized, s)
  | some (userId, username) =>
    if !(s.store.getRoomByID req.roomId) then (some .notFound, s)
    else if !(s.store.isRoomMember req.roomId userId) then (some .forbidden, s)
    else if !req.upgradeOk then (none, s)
    else (none, s.attachAndSeed req.roomId userId username req.freshCid)

/-- The call-presence invariant of the tracker (claim C6's equivalence plus
the facts needed to preserve it): the two call maps have the same rooms; a
user has a display record iff their reference count is positive; every
stored count is positive; no room entry holds an empty count map. -/
def callInv (h : Hub) : Prop :=
  (∀ r, (mlookup h.callCounts r).isSome ↔ (mlookup h.callUsers r).isSome)
  ∧ (∀ r u, h.inCallRecord r u = true ↔ 0 < h.callCount r u)
  ∧ (∀ r cs, mlookup h.callCounts r = some cs → ∀ u n, mlookup cs u = some n → 0 < n)
  ∧ (∀ r cs, mlookup h.callCounts r = some cs → cs ≠ [])

/-- The room-registry invariant (claim C7): every registered room set is
non-empty, has no duplicate connection identities, and only holds
connections whose room id is that room. -/
def registryInv (h : Hub) : Prop :=
  ∀ r cs, mlookup h.rooms r = some cs →
    cs ≠ [] ∧ cs.Nodup ∧ ∀ c ∈ cs, c.roomId = r

/-- Hub states reachable from `Hub.new` through the hub's operations. -/
inductive Hub.Reach : Hub → Prop where
  | new : Hub.Reach Hub.new
  | add (h : Hub) (c : Client) : Hub.Reach h → Hub.Reach (h.add c)
  | remove (h : Hub) (c : Client) : Hub.Reach h → Hub.Reach (h.remove c)
  | setInCall (h : Hub) (c : Client) (b : Bool) :
      Hub.Reach h → Hub.Reach (h.setInCall c b)

/-- The `InCall` flag of the connection with the given identity. -/
def Sys.connInCall (s : Sys) (cid : Nat) : Bool :=
  ((s.conns.find? (fun c => c.client.cid == cid)).map (fun c => c.inCall)).getD false

/-- Number of currently-registered connections of a user in a room whose
in-call flag is set. -/
def inCallConnCount (s : Sys) (roomId userId : Nat) : Nat :=
  ((roomClients s.hub roomId).filter
    (fun cl => cl.userId == userId && s.connInCall cl.cid)).length

/-- Outbound queue of the connection with the given identity. -/
def Sys.queueOf (s : Sys) (cid : Nat) : List OutgoingMessage :=
  ((s.conns.find? (fun c => c.client.cid == cid)).map (fun c => c.queue)).getD []

/-- Concrete store for the counterexample traces: one room (id 0) with two
members, alice (user 1) and bob (user 2), and no persisted messages. -/
def demoStore : Store :=
  { rooms := [0],
    members := [⟨0, 1, "alice"⟩, ⟨0, 2, "bob"⟩],
    users := [(1, "alice"), (2, "bob")],
    messages := [] }

/-- Fresh system over `demoStore`. -/
def demoSys0 : Sys := { hub := Hub.new, conns := [], store := demoStore }

/-- alice's first connection (cid 0) completes bootstrap into room 0. -/
def demoSysA : Sys :=
  (demoSys0.roomWebSocket ⟨some (1, "alice"), 0, true, 0⟩).2

/-- alice's second connection (cid 1) completes bootstrap into room 0. -/
def demoSysB : Sys :=
  (demoSysA.roomWebSocket ⟨some (1, "alice"), 0, true, 1⟩).2

/-- Connection 0 sends `call_join`. -/
def demoSysC : Sys := demoSysB.readPumpStep 0 ⟨"call_join", ""⟩

/-- Connection 1 — which never joined the call — disconnects. -/
def demoSysD : Sys := demoSysC.readPumpCleanup 1

/-- C1: REFUTED on the code. In `demoSysC`, alice (user 1) has one
registered in-call connection in room 0 and a reference count of 1, as the
claim demands; but after connection 1 — which never processed a
`call_join` — detaches, `Hub.Remove` unconditionally runs
`removeCallLocked`, driving alice's count to 0 while her in-call connection
count is still 1. Detaching a connection that never joined the call does
NOT leave the user's count unchanged. -/
theorem remove_decrements_never_joined :
    demoSysC.hub.callCount 0 1 = 1
    ∧ inCallConnCount demoSysC 0 1 = 1
    ∧ demoSysD.hub.callCount 0 1 = 0
    ∧ inCallConnCount demoSysD 0 1 = 1 := by decide

/-- Client 0 of user 1 ("alice") in room 0, for the double-detach trace. -/
def clA : Client := ⟨0, 0, 1, "alice"⟩

/-- Client 1 of the same user in the same room. -/
def clB : Client := ⟨1, 0, 1, "alice"⟩

/-- Hub with both of alice's connections attached and in-call (reference
count 2). -/
def hubAB : Hub :=
  (((Hub.new.add clA).add clB).setInCall clA true).setInCall clB true

/-- C2: REFUTED on the code. With another connection of the same user
still registered and in-call, calling `Hub.Remove` twice on `clA` is not a
no-op after the first call: the room set is unchanged but the user's
call-presence count is decremented a second time (1 to 0), so the resulting
hub states differ. -/
theorem remove_twice_double_decrement :
    (hubAB.remove clA).callCount 0 1 = 1
    ∧ ((hubAB.remove clA).remove clA).callCount 0 1 = 0
    ∧ roomClients ((hubAB.remove clA).remove clA) 0 = roomClients (hubAB.remove clA) 0
    ∧ ((hubAB.remove clA).remove clA) ≠ (hubAB.remove clA) := by decide

/-- C3: counterexample to the claim as stated. During bob's successful
bootstrap (the `demoSysA` to `demoSysB` step), the pre-existing connection
0 is delivered exactly one message — the chat-participant snapshot — and no
call-participant snapshot, so the claimed room-wide call-participant push
does not happen. -/
theorem bootstrap_roomwide_call_snapshot_cex :
    (demoSysB.queueOf 0).drop (demoSysA.queueOf 0).length
        = [seedParticipantsMsg demoStore 0]
    ∧ (seedParticipantsMsg demoStore 0).type ≠ "call_participants" := by decide

/-- C8: a frame of type "chat" with empty content, or a frame whose type is
none of "chat" / "call_join" / "call_leave", falls through `ReadPump`'s
switch with no matching case (`continue`): nothing is persisted, nothing is
broadcast, hub state and every connection's queue, flag and socket are
unchanged, and the loop keeps reading. -/
theorem malformed_frames_ignored :
    ∀ (s : Sys) (cid : Nat) (incoming : IncomingMessage),
      ((incoming.type = "chat" ∧ incoming.content = "")
        ∨ (incoming.type ≠ "chat" ∧ incoming.type ≠ "call_join"
            ∧ incoming.type ≠ "call_leave")) →
      s.readPumpStep cid incoming = s := by
  intro s cid incoming hmal
  unfold Sys.readPumpStep
  cases hfind : s.conns.find? (fun c => c.client.cid == cid) with
  | none => rfl
  | some c =>
      rcases hmal with ⟨ht, hc⟩ | ⟨h1, h2, h3⟩
      · simp [ht, hc]
      · simp [h1, h2, h3]

/-- C8 witness: the empty-chat frame is dropped on the concrete two-client
system. -/
theorem malformed_frames_ignored_witness :
    demoSysB.readPumpStep 0 ⟨"chat", ""⟩ = demoSysB :=
  malformed_frames_ignored demoSysB 0 ⟨"chat", ""⟩ (Or.inl ⟨rfl, rfl⟩)

/-- The effective limit `Store.ListMessages` applies: out-of-range values
are clamped to 50. -/
def effLimit (limit : Int) : Int :=
  if limit ≤ 0 || limit > 200 then 50 else limit

theorem effLimit_spec (limit : Int) :
    effLimit limit = if limit ≤ 0 ∨ 200 < limit then 50 else limit := by
  unfold effLimit
  split
  · next hb =>
      simp only [Bool.or_eq_true, decide_eq_true_eq] at hb
      rw [if_pos hb]
  · next hb =>
      simp only [Bool.or_eq_true, decide_eq_true_eq, not_or] at hb
      have hn : ¬ (limit ≤ 0 ∨ 200 < limit) := by
        intro hx
        rcases hx with hx | hx
        · exact hb.1 hx
        · exact hb.2 hx
      rw [if_neg hn]

theorem listMessages_eq (msgs : List Message) (roomId : Nat) (limit : Int) :
    listMessages msgs roomId limit =
      ((msgs.filter (fun m => m.roomId == roomId)).reverse.take
        (effLimit limit).toNat).reverse := rfl

theorem listMessages_length_le (msgs : List Message) (roomId : Nat) (limit : Int) :
    (listMessages msgs roomId limit).length ≤ (effLimit limit).toNat := by
  rw [listMessages_eq]
  simp only [List.length_reverse, List.length_take]
  exact min_le_left _ _

/-- C10: a requested limit that is zero, negative, or above 200 behaves
exactly as limit 50; the returned list's length never exceeds 200 and never
exceeds max(limit, 50). -/
theorem listMessages_limit_clamped :
    ∀ (msgs : List Message) (roomId : Nat) (limit : Int),
      ((limit ≤ 0 ∨ 200 < limit) →
          listMessages msgs roomId limit = listMessages msgs roomId 50)
      ∧ (listMessages msgs roomId limit).length ≤ 200
      ∧ ((listMessages msgs roomId limit).length : Int) ≤ max limit 50 := by
  intro msgs roomId limit
  refine ⟨?_, ?_, ?_⟩
  · intro hc
    rw [listMessages_eq, listMessages_eq, effLimit_spec, if_pos hc,
        effLimit_spec, if_neg (by norm_num)]
  · have h1 := listMessages_length_le msgs roomId limit
    rw [effLimit_spec] at h1
    by_cases hc : limit ≤ 0 ∨ 200 < limit
    · rw [if_pos hc] at h1
      omega
    · rw [if_neg hc] at h1
      push_neg at hc
      omega
  · have h1 := listMessages_length_le msgs roomId limit
    rw [effLimit_spec] at h1
    by_cases hc : limit ≤ 0 ∨ 200 < limit
    · rw [if_pos hc] at h1
      refine le_trans ?_ (le_max_right limit 50)
      omega
    · rw [if_neg hc] at h1
      push_neg at hc
      refine le_trans ?_ (le_max_left limit 50)
      omega

/-- C10 witness: an over-range limit of 300 on the demo store's (empty)
log behaves as limit 50. -/
theorem listMessages_limit_clamped_witness :
    listMessages demoStore.messages 0 300 = listMessages demoStore.messages 0 50 :=
  (listMessages_limit_clamped demoStore.messages 0 300).1 (by norm_num)

/-- C4: `Hub.Broadcast` maps every connection independently through
`broadcastOne` (so no recipient's outcome can block or change another's,
and the hub state is untouched); per recipient, a connection in the target
room's set with free queue capacity gets the message appended, one with a
full queue is closed with nothing enqueued, and a connection outside the
set — in particular, under the registry invariant, any connection of
another room — is untouched. -/
theorem broadcast_backpressure :
    ∀ (s : Sys) (roomId : Nat) (m : OutgoingMessage),
      (s.broadcast roomId m).conns
          = s.conns.map (broadcastOne (roomClients s.hub roomId) m)
      ∧ (s.broadcast roomId m).hub = s.hub
      ∧ ∀ c : Conn,
          (c.client ∈ roomClients s.hub roomId → c.queue.length < c.cap →
            broadcastOne (roomClients s.hub roomId) m c
              = { c with queue := c.queue ++ [m] })
          ∧ (c.client ∈ roomClients s.hub roomId → c.cap ≤ c.queue.length →
            broadcastOne (roomClients s.hub roomId) m c
              = { c with closed := true })
          ∧ (c.client ∉ roomClients s.hub roomId →
            broadcastOne (roomClients s.hub roomId) m c = c)
          ∧ (registryInv s.hub → c.client.roomId ≠ roomId →
            broadcastOne (roomClients s.hub roomId) m c = c) := by
  intro s roomId m
  refine ⟨rfl, rfl, ?_⟩
  intro c
  refine ⟨?_, ?_, ?_, ?_⟩
  · intro hmem hfree
    unfold broadcastOne
    rw [if_pos hmem, if_pos hfree]
  · intro hmem hfull
    unfold broadcastOne
    rw [if_pos hmem, if_neg (Nat.not_lt.mpr hfull)]
  · intro hmem
    unfold broadcastOne
    rw [if_neg hmem]
  · intro hinv hne
    have hmem : c.client ∉ roomClients s.hub roomId := by
      unfold roomClients
      cases hl : mlookup s.hub.rooms roomId with
      | none => simp
      | some cs =>
          intro hc
          exact hne ((hinv roomId cs hl).2.2 c.client (by simpa using hc))
    unfold broadcastOne
    rw [if_neg hmem]

/-- C4 witness: on the concrete two-client system, broadcasting to room 0
appends the message to a room-0 connection with free capacity. -/
theorem broadcast_backpressure_witness :
    broadcastOne (roomClients demoSysB.hub 0) ⟨"participants", none, [], [], []⟩
        ⟨clA, false, [], 64, false⟩
      = ⟨clA, false, [⟨"participants", none, [], [], []⟩], 64, false⟩ :=
  ((broadcast_backpressure demoSysB 0 ⟨"participants", none, [], [], []⟩).2.2
    ⟨clA, false, [], 64, false⟩).1 (by decide) (by decide)

/-- C5: `Server.roomWebSocket` rejects an invalid token as unauthorized, a
missing room as not found, and a non-member caller as forbidden, in that
order; every rejection leaves the system (hub included) unchanged, and the
connection is constructed and attached (attach-and-seed runs) only when all
three checks — and the socket upgrade — succeed. -/
theorem roomWebSocket_checks :
    ∀ (s : Sys) (req : UpgradeRequest),
      (req.token = none → s.roomWebSocket req = (some WsReject.unauthorized, s))
      ∧ (∀ userId username, req.token = some (userId, username) →
          (s.store.getRoomByID req.roomId = false →
            s.roomWebSocket req = (some WsReject.notFound, s))
          ∧ (s.store.getRoomByID req.roomId = true →
             s.store.isRoomMember req.roomId userId = false →
            s.roomWebSocket req = (some WsReject.forbidden, s))
          ∧ (s.store.getRoomByID req.roomId = true →
             s.store.isRoomMember req.roomId userId = true →
             req.upgradeOk = true →
            s.roomWebSocket req
              = (none, s.attachAndSeed req.roomId userId username req.freshCid)))
      ∧ (∀ e, (s.roomWebSocket req).1 = some e → (s.roomWebSocket req).2 = s)
      ∧ ((s.roomWebSocket req).2 ≠ s →
          ∃ userId username, req.token = some (userId, username)
            ∧ s.store.getRoomByID req.roomId = true
            ∧ s.store.isRoomMember req.roomId userId = true
            ∧ req.upgradeOk = true) := by
  intro s req
  rcases htok : req.token with _ | ⟨uid, uname⟩
  · have hred : s.roomWebSocket req = (some WsReject.unauthorized, s) := by
      simp [Sys.roomWebSocket, htok]
    refine ⟨fun _ => hred, ?_, ?_, ?_⟩
    · intro userId username htok2
      cases htok2
    · intro e _
      rw [hred]
    · intro hne
      exact absurd (by rw [hred]) hne
  · cases hroom : s.store.getRoomByID req.roomId with
    | false =>
        have hred : s.roomWebSocket req = (some WsReject.notFound, s) := by
          simp [Sys.roomWebSocket, htok, hroom]
        refine ⟨?_, ?_, ?_, ?_⟩
        · intro htok2; cases htok2
        · intro userId username htok2
          injection htok2 with hp
          rw [Prod.mk.injEq] at hp
          obtain ⟨rfl, rfl⟩ := hp
          refine ⟨fun _ => hred, ?_, ?_⟩
          · intro hr; cases hr
          · intro hr; cases hr
        · intro e _; rw [hred]
        · intro hne; exact absurd (by rw [hred]) hne
    | true =>
        cases hmem : s.store.isRoomMember req.roomId uid with
        | false =>
            have hred : s.roomWebSocket req = (some WsReject.forbidden, s) := by
              simp [Sys.roomWebSocket, htok, hroom, hmem]
            refine ⟨?_, ?_, ?_, ?_⟩
            · intro htok2; cases htok2
            · intro userId username htok2
              injection htok2 with hp
              rw [Prod.mk.injEq] at hp
              obtain ⟨rfl, rfl⟩ := hp
              refine ⟨?_, fun _ _ => hred, ?_⟩
              · intro hr; cases hr
              · intro _ hm _; rw [hmem] at hm; cases hm
            · intro e _; rw [hred]
            · intro hne; exact absurd (by rw [hred]) hne
        | true =>
            cases hup : req.upgradeOk with
            | false =>
                have hred : s.roomWebSocket req = (none, s) := by
                  simp [Sys.roomWebSocket, htok, hroom, hmem, hup]
                refine ⟨?_, ?_, ?_, ?_⟩
                · intro htok2; cases htok2
                · intro userId username htok2
                  injection htok2 with hp
                  rw [Prod.mk.injEq] at hp
                  obtain ⟨rfl, rfl⟩ := hp
                  refine ⟨?_, ?_, ?_⟩
                  · intro hr; cases hr
                  · intro _ hm; rw [hmem] at hm; cases hm
                  · intro _ _ hu; cases hu
                · intro e _; rw [hred]
                · intro hne; exact absurd (by rw [hred]) hne
            | true =>
                have hred : s.roomWebSocket req
                    = (none, s.attachAndSeed req.roomId uid uname req.freshCid) := by
                  simp [Sys.roomWebSocket, htok, hroom, hmem, hup]
                refine ⟨?_, ?_, ?_, ?_⟩
                · intro htok2; cases htok2
                · intro userId username htok2
                  injection htok2 with hp
                  rw [Prod.mk.injEq] at hp
                  obtain ⟨rfl, rfl⟩ := hp
                  refine ⟨?_, ?_, fun _ _ _ => hred⟩
                  · intro hr; cases hr
                  · intro _ hm; rw [hmem] at hm; cases hm
                · intro e he; rw [hred] at he; cases he
                · intro _
                  exact ⟨uid, uname, rfl, rfl, hmem, rfl⟩

/-- C5 witness: a request with an invalid token against the demo system is
rejected as unauthorized with the system unchanged. -/
theorem roomWebSocket_checks_witness :
    demoSys0.roomWebSocket ⟨none, 0, true, 7⟩
      = (some WsReject.unauthorized, demoSys0) :=
  (roomWebSocket_checks demoSys0 ⟨none, 0, true, 7⟩).1 rfl

theorem broadcastOne_client (clients : List Client) (p : OutgoingMessage) (c : Conn) :
    (broadcastOne clients p c).client = c.client := by
  unfold broadcastOne
  split
  · split <;> rfl
  · rfl

theorem mem_roomClients_add_self (h : Hub) (cl : Client) :
    cl ∈ roomClients (h.add cl) cl.roomId := by
  simp only [Hub.add, roomClients, mlookup_mset_self, Option.getD_some]
  split
  · next hmem => exact hmem
  · simp

theorem seedCallMsg_add (h : Hub) (c : Client) (roomId : Nat) :
    seedCallMsg (h.add c) roomId = seedCallMsg h roomId := rfl

theorem attachAndSeed_hub (s : Sys) (roomId userId : Nat) (username : String)
    (cid : Nat) :
    (s.attachAndSeed roomId userId username cid).hub
      = s.hub.add ⟨cid, roomId, userId, username⟩ := rfl

theorem attachAndSeed_store (s : Sys) (roomId userId : Nat) (username : String)
    (cid : Nat) :
    (s.attachAndSeed roomId userId username cid).store = s.store := rfl

/-- Full characterisation of the connection list after a successful
attach-and-seed with a fresh connection identity: every pre-existing
connection goes through exactly one `broadcastOne` with the
chat-participant snapshot, and the new connection ends with queue
[participants, history, call_participants]. -/
theorem attachAndSeed_conns (s : Sys) (roomId userId : Nat) (username : String)
    (cid : Nat) (hfresh : ∀ c ∈ s.conns, c.client.cid ≠ cid) :
    (s.attachAndSeed roomId userId username cid).conns
      = s.conns.map (broadcastOne
          (roomClients (s.hub.add ⟨cid, roomId, userId, username⟩) roomId)
          (seedParticipantsMsg s.store roomId))
        ++ [⟨⟨cid, roomId, userId, username⟩, false,
             [seedParticipantsMsg s.store roomId, seedHistoryMsg s.store roomId,
              seedCallMsg s.hub roomId], 64, false⟩] := by
  simp only [Sys.attachAndSeed, Sys.broadcast, Sys.sendTo]
  simp only [List.map_append, List.map_map, List.map_cons, List.map_nil]
  congr 1
  · apply List.map_congr_left
    intro c hcmem
    have hb : ((broadcastOne
        (roomClients (s.hub.add ⟨cid, roomId, userId, username⟩) roomId)
        (seedParticipantsMsg s.store roomId) c).client.cid == cid) = false := by
      rw [broadcastOne_client]
      exact beq_eq_false_iff_ne.mpr (hfresh c hcmem)
    simp [Function.comp, hb]
  · have hmem := mem_roomClients_add_self s.hub ⟨cid, roomId, userId, username⟩
    simp [Function.comp, broadcastOne, hmem, seedCallMsg_add]

/-- C3 (amended): immediately after a successful bootstrap with a fresh
connection identity, a chat-participant snapshot is broadcast to every
connection in the room (the new one included; a full-queue recipient is
evicted instead), and the history snapshot and a call-participant snapshot
go to the new connection only: the new connection's queue is exactly
[participants, history, call_participants] and no other queue receives
history or call_participants. -/
theorem bootstrap_seed :
    ∀ (s : Sys) (roomId userId : Nat) (username : String) (cid : Nat),
      (∀ c ∈ s.conns, c.client.cid ≠ cid) →
      s.attachAndSeed roomId userId username cid
        = { hub := s.hub.add ⟨cid, roomId, userId, username⟩,
            conns := s.conns.map (broadcastOne
                (roomClients (s.hub.add ⟨cid, roomId, userId, username⟩) roomId)
                (seedParticipantsMsg s.store roomId))
              ++ [⟨⟨cid, roomId, userId, username⟩, false,
                   [seedParticipantsMsg s.store roomId, seedHistoryMsg s.store roomId,
                    seedCallMsg s.hub roomId], 64, false⟩],
            store := s.store }
      ∧ (∀ c : Conn,
          c.client ∈ roomClients (s.hub.add ⟨cid, roomId, userId, username⟩) roomId →
          c.queue.length < c.cap →
          broadcastOne (roomClients (s.hub.add ⟨cid, roomId, userId, username⟩) roomId)
              (seedParticipantsMsg s.store roomId) c
            = { c with queue := c.queue ++ [seedParticipantsMsg s.store roomId] }) := by
  intro s roomId userId username cid hfresh
  constructor
  · have h1 := attachAndSeed_conns s roomId userId username cid hfresh
    have h2 : s.attachAndSeed roomId userId username cid
        = ⟨(s.attachAndSeed roomId userId username cid).hub,
           (s.attachAndSeed roomId userId username cid).conns,
           (s.attachAndSeed roomId userId username cid).store⟩ := rfl
    rw [h2, h1, attachAndSeed_hub, attachAndSeed_store]
  · intro c hmem hfree
    unfold broadcastOne
    rw [if_pos hmem, if_pos hfree]

/-- C3 witness: the amended seeding behaviour on the demo system's first
bootstrap. -/
theorem bootstrap_seed_witness :
    demoSys0.attachAndSeed 0 1 "alice" 0
      = { hub := demoSys0.hub.add ⟨0, 0, 1, "alice"⟩,
          conns := demoSys0.conns.map (broadcastOne
              (roomClients (demoSys0.hub.add ⟨0, 0, 1, "alice"⟩) 0)
              (seedParticipantsMsg demoSys0.store 0))
            ++ [⟨⟨0, 0, 1, "alice"⟩, false,
                 [seedParticipantsMsg demoSys0.store 0, seedHistoryMsg demoSys0.store 0,
                  seedCallMsg demoSys0.hub 0], 64, false⟩],
          store := demoSys0.store } :=
  (bootstrap_seed demoSys0 0 1 "alice" 0 (by decide)).1

theorem reverse_take_reverse {α : Type} (l : List α) (n : Nat) :
    (l.reverse.take n).reverse = l.drop (l.length - n) := by
  rw [← List.rtake_eq_reverse_take_reverse]
  rfl

/-- C9: for a positive in-range limit, the history listing is the final
(most recently created) segment of the room's persistence-ordered log —
hence oldest-first — of length at most the limit; and at bootstrap the
history snapshot (this listing with limit 50) is put on the new
connection's queue and on no other connection's queue. -/
theorem history_listing :
    (∀ (msgs : List Message) (roomId : Nat) (limit : Int),
        0 < limit → limit ≤ 200 →
        listMessages msgs roomId limit
            = (msgs.filter (fun m => m.roomId == roomId)).drop
                ((msgs.filter (fun m => m.roomId == roomId)).length - limit.toNat)
        ∧ (listMessages msgs roomId limit).length ≤ limit.toNat)
    ∧ (∀ (s : Sys) (roomId userId : Nat) (username : String) (cid : Nat),
        (∀ c ∈ s.conns, c.client.cid ≠ cid) →
        (s.attachAndSeed roomId userId username cid).conns.map
            (fun c => c.queue.filter (fun m => m.type == "history"))
          = s.conns.map (fun c => c.queue.filter (fun m => m.type == "history"))
            ++ [[seedHistoryMsg s.store roomId]]) := by
  constructor
  · intro msgs roomId limit h0 h200
    have heff : effLimit limit = limit := by
      rw [effLimit_spec, if_neg (by omega)]
    constructor
    · rw [listMessages_eq, heff, reverse_take_reverse]
    · have hl := listMessages_length_le msgs roomId limit
      rwa [heff] at hl
  · intro s roomId userId username cid hfresh
    rw [attachAndSeed_conns s roomId userId username cid hfresh]
    rw [List.map_append, List.map_map]
    congr 1
    · apply List.map_congr_left
      intro c _
      show ((broadcastOne _ _ c).queue.filter (fun m => m.type == "history"))
          = c.queue.filter (fun m => m.type == "history")
      unfold broadcastOne
      split
      · split
        · simp [List.filter_append, seedParticipantsMsg]
        · rfl
      · rfl

/-- Demo message log for the C9 witness: room 0 holds messages 0, 1 and 3
(in creation order); message 2 belongs to another room. -/
def demoMsgs : List Message :=
  [⟨0, 0, 1, "alice", "m0", "text", "", 0⟩,
   ⟨1, 0, 2, "bob", "m1", "text", "", 1⟩,
   ⟨2, 9, 1, "alice", "x", "text", "", 2⟩,
   ⟨3, 0, 1, "alice", "m2", "text", "", 3⟩]

/-- C9 witness: listing room 0 of the demo log with limit 2 returns the
last two room-0 messages, oldest-first. -/
theorem history_listing_witness :
    listMessages demoMsgs 0 2
        = (demoMsgs.filter (fun m => m.roomId == 0)).drop
            ((demoMsgs.filter (fun m => m.roomId == 0)).length - (2 : Int).toNat)
    ∧ (listMessages demoMsgs 0 2).length ≤ (2 : Int).toNat :=
  history_listing.1 demoMsgs 0 2 (by norm_num) (by norm_num)

theorem eq_nil_of_isEmpty {α : Type} (l : List α) (h : l.isEmpty = true) : l = [] := by
  cases l with
  | nil => rfl
  | cons a t => cases h

theorem isEmpty_eq_false_of_ne_nil {α : Type} (l : List α) (h : l ≠ []) :
    l.isEmpty = false := by
  cases l with
  | nil => exact absurd rfl h
  | cons a t => rfl

theorem removeCallLocked_rooms (h : Hub) (roomId userId : Nat) :
    (h.removeCallLocked roomId userId).rooms = h.rooms := by
  unfold Hub.removeCallLocked
  cases hcc : mlookup h.callCounts roomId with
  | none => rfl
  | some counts =>
      dsimp only
      split <;> split <;> rfl

theorem setInCall_rooms (h : Hub) (c : Client) (b : Bool) :
    (h.setInCall c b).rooms = h.rooms := by
  unfold Hub.setInCall
  split
  · rfl
  · exact removeCallLocked_rooms h c.roomId c.userId

theorem registryInv_of_rooms_eq (h1 h2 : Hub) (he : h1.rooms = h2.rooms)
    (hinv : registryInv h1) : registryInv h2 := by
  unfold registryInv at *
  rw [← he]
  exact hinv

theorem registryInv_add (h : Hub) (c : Client) (hinv : registryInv h) :
    registryInv (h.add c) := by
  intro r cs hcs
  simp only [Hub.add] at hcs
  by_cases hr : r = c.roomId
  · subst hr
    rw [mlookup_mset_self] at hcs
    injection hcs with hcs
    subst hcs
    cases hl : mlookup h.rooms c.roomId with
    | none =>
        simp
    | some cs0 =>
        obtain ⟨hn0, hnd0, hroom0⟩ := hinv c.roomId cs0 hl
        simp only [Option.getD_some]
        by_cases hmem : c ∈ cs0
        · rw [if_pos hmem]
          exact ⟨hn0, hnd0, hroom0⟩
        · rw [if_neg hmem]
          refine ⟨by simp, ?_, ?_⟩
          · rw [List.nodup_append]
            refine ⟨hnd0, List.nodup_singleton c, ?_⟩
            intro x hx hx'
            rw [List.mem_singleton] at hx'
            subst hx'
            exact hmem hx
          · intro x hx
            rcases List.mem_append.mp hx with hx | hx
            · exact hroom0 x hx
            · rw [List.mem_singleton] at hx
              subst hx
              rfl
  · rw [mlookup_mset_of_ne _ _ _ _ hr] at hcs
    exact hinv r cs hcs

theorem registryInv_remove (h : Hub) (c : Client) (hinv : registryInv h) :
    registryInv (h.remove c) := by
  intro r cs hcs
  unfold Hub.remove at hcs
  cases hl : mlookup h.rooms c.roomId with
  | none =>
      rw [hl] at hcs
      exact hinv r cs hcs
  | some clients =>
      rw [hl] at hcs
      dsimp only at hcs
      split at hcs
      · next hemp =>
          rw [removeCallLocked_rooms] at hcs
          dsimp only at hcs
          by_cases hr : r = c.roomId
          · subst hr
            rw [mlookup_mdel_self] at hcs
            cases hcs
          · rw [mlookup_mdel_of_ne _ _ _ hr, mlookup_mset_of_ne _ _ _ _ hr] at hcs
            exact hinv r cs hcs
      · next hemp =>
          rw [removeCallLocked_rooms] at hcs
          dsimp only at hcs
          by_cases hr : r = c.roomId
          · subst hr
            rw [mlookup_mset_self] at hcs
            injection hcs with hcs
            subst hcs
            obtain ⟨hn0, hnd0, hroom0⟩ := hinv c.roomId clients hl
            refine ⟨?_, hnd0.filter _, ?_⟩
            · intro hnil
              rw [hnil] at hemp
              exact hemp rfl
            · intro x hx
              exact hroom0 x (List.mem_of_mem_filter hx)
          · rw [mlookup_mset_of_ne _ _ _ _ hr] at hcs
            exact hinv r cs hcs

/-- C7: in every reachable hub state, every registered room's connection
set is non-empty (empty sets are pruned by detach), duplicate-free, and
contains only connections whose room id is that room; attach and detach
(and the call-presence operations, which leave the registry untouched)
preserve this. -/
theorem registry_invariant :
    (∀ h, Hub.Reach h → ∀ r cs, mlookup h.rooms r = some cs →
        cs ≠ [] ∧ cs.Nodup ∧ ∀ c ∈ cs, c.roomId = r)
    ∧ (∀ h c, registryInv h →
        registryInv (h.add c) ∧ registryInv (h.remove c)
        ∧ ∀ b, registryInv (h.setInCall c b)) := by
  have hstep : ∀ h c, registryInv h →
      registryInv (h.add c) ∧ registryInv (h.remove c)
      ∧ ∀ b, registryInv (h.setInCall c b) := by
    intro h c hinv
    refine ⟨registryInv_add h c hinv, registryInv_remove h c hinv, ?_⟩
    intro b
    exact registryInv_of_rooms_eq h _ (setInCall_rooms h c b).symm hinv
  have hreach : ∀ h, Hub.Reach h → registryInv h := by
    intro h hr
    induction hr with
    | new => intro r cs hcs; cases hcs
    | add h c _ ih => exact (hstep h c ih).1
    | remove h c _ ih => exact (hstep h c ih).2.1
    | setInCall h c b _ ih => exact (hstep h c ih).2.2 b
  exact ⟨fun h hr => hreach h hr, hstep⟩

/-- C7 witness: the invariant holds in the concrete reachable hub with
alice's two connections in room 0. -/
theorem registry_invariant_witness :
    ∀ cs, mlookup hubAB.rooms 0 = some cs →
      cs ≠ [] ∧ cs.Nodup ∧ ∀ c ∈ cs, c.roomId = 0 :=
  registry_invariant.1 hubAB
    (Hub.Reach.setInCall _ clB true
      (Hub.Reach.setInCall _ clA true
        (Hub.Reach.add _ clB (Hub.Reach.add _ clA Hub.Reach.new)))) 0

theorem callCount_nonneg_aux (h : Hub)
    (hpos : ∀ r cs, mlookup h.callCounts r = some cs →
      ∀ u n, mlookup cs u = some n → 0 < n)
    (r u : Nat) : 0 ≤ (mlookup ((mlookup h.callCounts r).getD []) u).getD 0 := by
  cases hcc : mlookup h.callCounts r with
  | none => simp [mlookup_nil]
  | some cs =>
      simp only [Option.getD_some]
      cases hcu : mlookup cs u with
      | none => simp
      | some n =>
          have := hpos r cs hcc u n hcu
          simp only [Option.getD_some]
          omega

theorem callInv_of_eq (h1 h2 : Hub) (hc : h1.callCounts = h2.callCounts)
    (hu : h1.callUsers = h2.callUsers) (hinv : callInv h1) : callInv h2 := by
  unfold callInv Hub.inCallRecord Hub.callCount at hinv ⊢
  rw [← hc, ← hu]
  exact hinv

theorem callInv_addCallLocked (h : Hub) (roomId userId : Nat) (username : String)
    (hinv : callInv h) : callInv (h.addCallLocked roomId userId username) := by
  obtain ⟨hdom, hiff, hpos, hne⟩ := hinv
  have hnn := callCount_nonneg_aux h hpos roomId userId
  unfold callInv Hub.inCallRecord Hub.callCount Hub.addCallLocked
  dsimp only
  refine ⟨?_, ?_, ?_, ?_⟩
  · intro r
    by_cases hr : r = roomId
    · subst hr
      simp [mlookup_mset_self]
    · rw [mlookup_mset_of_ne _ _ _ _ hr, mlookup_mset_of_ne _ _ _ _ hr]
      exact hdom r
  · intro r u
    by_cases hr : r = roomId
    · subst hr
      rw [mlookup_mset_self, mlookup_mset_self]
      simp only [Option.getD_some]
      by_cases hu : u = userId
      · subst hu
        rw [mlookup_mset_self, mlookup_mset_self]
        simp only [Option.isSome_some, Option.getD_some]
        constructor
        · intro _
          omega
        · intro _
          trivial
      · rw [mlookup_mset_of_ne _ _ _ _ hu, mlookup_mset_of_ne _ _ _ _ hu]
        exact hiff r u
    · rw [mlookup_mset_of_ne _ _ _ _ hr, mlookup_mset_of_ne _ _ _ _ hr]
      exact hiff r u
  · intro r cs hcs
    by_cases hr : r = roomId
    · subst hr
      rw [mlookup_mset_self] at hcs
      injection hcs with hcs
      subst hcs
      intro u n hlook
      by_cases hu : u = userId
      · subst hu
        rw [mlookup_mset_self] at hlook
        injection hlook with hlook
        omega
      · rw [mlookup_mset_of_ne _ _ _ _ hu] at hlook
        cases hcc : mlookup h.callCounts r with
        | none =>
            rw [hcc, Option.getD_none, mlookup_nil] at hlook
            cases hlook
        | some cs0 =>
            rw [hcc, Option.getD_some] at hlook
            exact hpos r cs0 hcc u n hlook
    · rw [mlookup_mset_of_ne _ _ _ _ hr] at hcs
      exact hpos r cs hcs
  · intro r cs hcs
    by_cases hr : r = roomId
    · subst hr
      rw [mlookup_mset_self] at hcs
      injection hcs with hcs
      subst hcs
      exact mset_ne_nil _ _ _
    · rw [mlookup_mset_of_ne _ _ _ _ hr] at hcs
      exact hne r cs hcs

theorem callInv_removeCallLocked (h : Hub) (roomId userId : Nat)
    (hinv : callInv h) : callInv (h.removeCallLocked roomId userId) := by
  have hinv' := hinv
  obtain ⟨hdom, hiff, hpos, hne⟩ := hinv
  unfold Hub.removeCallLocked
  cases hcc : mlookup h.callCounts roomId with
  | none => exact hinv'
  | some counts =>
      obtain ⟨users, hcu⟩ : ∃ users, mlookup h.callUsers roomId = some users := by
        have hs := (hdom roomId).mp (by rw [hcc]; rfl)
        cases hx : mlookup h.callUsers roomId with
        | none => rw [hx] at hs; cases hs
        | some us => exact ⟨us, rfl⟩
      have hcnt : ∀ u n, mlookup counts u = some n → 0 < n := hpos roomId counts hcc
      dsimp only
      rw [hcu]
      dsimp only
      by_cases hn : (mlookup counts userId).getD 0 - 1 ≤ 0
      · rw [if_pos hn, if_pos hn]
        by_cases hemp : (mdel counts userId).isEmpty = true
        · rw [if_pos hemp]
          unfold callInv Hub.inCallRecord Hub.callCount
          dsimp only
          refine ⟨?_, ?_, ?_, ?_⟩
          · intro r
            by_cases hr : r = roomId
            · subst hr
              rw [mlookup_mdel_self, mlookup_mdel_self]
              exact Iff.rfl
            · rw [mlookup_mdel_of_ne _ _ _ hr, mlookup_mdel_of_ne _ _ _ hr,
                  mlookup_mset_of_ne _ _ _ _ hr]
              exact hdom r
          · intro r u
            by_cases hr : r = roomId
            · subst hr
              rw [mlookup_mdel_self, mlookup_mdel_self]
              simp [mlookup_nil]
            · rw [mlookup_mdel_of_ne _ _ _ hr, mlookup_mdel_of_ne _ _ _ hr,
                  mlookup_mset_of_ne _ _ _ _ hr]
              exact hiff r u
          · intro r cs hcs
            by_cases hr : r = roomId
            · subst hr
              rw [mlookup_mdel_self] at hcs
              cases hcs
            · rw [mlookup_mdel_of_ne _ _ _ hr] at hcs
              exact hpos r cs hcs
          · intro r cs hcs
            by_cases hr : r = roomId
            · subst hr
              rw [mlookup_mdel_self] at hcs
              cases hcs
            · rw [mlookup_mdel_of_ne _ _ _ hr] at hcs
              exact hne r cs hcs
        · rw [if_neg hemp]
          unfold callInv Hub.inCallRecord Hub.callCount
          dsimp only
          refine ⟨?_, ?_, ?_, ?_⟩
          · intro r
            by_cases hr : r = roomId
            · subst hr
              rw [mlookup_mset_self, mlookup_mset_self]
              simp
            · rw [mlookup_mset_of_ne _ _ _ _ hr, mlookup_mset_of_ne _ _ _ _ hr]
              exact hdom r
          · intro r u
            by_cases hr : r = roomId
            · subst hr
              rw [mlookup_mset_self, mlookup_mset_self]
              simp only [Option.getD_some]
              by_cases hu : u = userId
              · subst hu
                rw [mlookup_mdel_self, mlookup_mdel_self]
                simp
              · rw [mlookup_mdel_of_ne _ _ _ hu, mlookup_mdel_of_ne _ _ _ hu]
                have h2 := hiff r u
                unfold Hub.inCallRecord Hub.callCount at h2
                rw [hcc, hcu] at h2
                simpa using h2
            · rw [mlookup_mset_of_ne _ _ _ _ hr, mlookup_mset_of_ne _ _ _ _ hr]
              exact hiff r u
          · intro r cs hcs
            by_cases hr : r = roomId
            · subst hr
              rw [mlookup_mset_self] at hcs
              injection hcs with hcs
              subst hcs
              intro u n hlook
              exact hcnt u n (mlookup_of_mdel_some _ _ _ _ hlook)
            · rw [mlookup_mset_of_ne _ _ _ _ hr] at hcs
              exact hpos r cs hcs
          · intro r cs hcs
            by_cases hr : r = roomId
            · subst hr
              rw [mlookup_mset_self] at hcs
              injection hcs with hcs
              subst hcs
              intro hnil
              rw [hnil] at hemp
              exact hemp rfl
            · rw [mlookup_mset_of_ne _ _ _ _ hr] at hcs
              exact hne r cs hcs
      · rw [if_neg hn, if_neg hn]
        have hb : ¬ ((mset counts userId ((mlookup counts userId).getD 0 - 1)).isEmpty = true) := by
          intro hx
          rw [isEmpty_eq_false_of_ne_nil _ (mset_ne_nil _ _ _)] at hx
          cases hx
        rw [if_neg hb]
        unfold callInv Hub.inCallRecord Hub.callCount
        dsimp only
        refine ⟨?_, ?_, ?_, ?_⟩
        · intro r
          by_cases hr : r = roomId
          · subst hr
            rw [mlookup_mset_self, hcu]
            simp
          · rw [mlookup_mset_of_ne _ _ _ _ hr]
            exact hdom r
        · intro r u
          by_cases hr : r = roomId
          · subst hr
            rw [mlookup_mset_self, hcu]
            simp only [Option.getD_some]
            by_cases hu : u = userId
            · subst hu
              rw [mlookup_mset_self]
              simp only [Option.getD_some]
              have h2 := hiff r u
              unfold Hub.inCallRecord Hub.callCount at h2
              rw [hcc, hcu] at h2
              simp only [Option.getD_some] at h2
              constructor
              · intro _
                omega
              · intro _
                exact h2.mpr (by omega)
            · rw [mlookup_mset_of_ne _ _ _ _ hu]
              have h2 := hiff r u
              unfold Hub.inCallRecord Hub.callCount at h2
              rw [hcc, hcu] at h2
              simpa using h2
          · rw [mlookup_mset_of_ne _ _ _ _ hr]
            exact hiff r u
        · intro r cs hcs
          by_cases hr : r = roomId
          · subst hr
            rw [mlookup_mset_self] at hcs
            injection hcs with hcs
            subst hcs
            intro u n hlook
            by_cases hu : u = userId
            · subst hu
              rw [mlookup_mset_self] at hlook
              injection hlook with hlook
              omega
            · rw [mlookup_mset_of_ne _ _ _ _ hu] at hlook
              exact hcnt u n hlook
          · rw [mlookup_mset_of_ne _ _ _ _ hr] at hcs
            exact hpos r cs hcs
        · intro r cs hcs
          by_cases hr : r = roomId
          · subst hr
            rw [mlookup_mset_self] at hcs
            injection hcs with hcs
            subst hcs
            exact mset_ne_nil _ _ _
          · rw [mlookup_mset_of_ne _ _ _ _ hr] at hcs
            exact hne r cs hcs

theorem callInv_setInCall (h : Hub) (c : Client) (b : Bool) (hinv : callInv h) :
    callInv (h.setInCall c b) := by
  unfold Hub.setInCall
  split
  · exact callInv_addCallLocked h c.roomId c.userId c.username hinv
  · exact callInv_removeCallLocked h c.roomId c.userId hinv

theorem callInv_add (h : Hub) (c : Client) (hinv : callInv h) :
    callInv (h.add c) :=
  callInv_of_eq h _ rfl rfl hinv

theorem callInv_remove (h : Hub) (c : Client) (hinv : callInv h) :
    callInv (h.remove c) := by
  unfold Hub.remove
  cases hl : mlookup h.rooms c.roomId with
  | none => exact hinv
  | some clients =>
      dsimp only
      have h2 := callInv_removeCallLocked
        (Hub.mk (mset h.rooms c.roomId (clients.filter (fun d => decide (d ≠ c))))
          h.callCounts h.callUsers)
        c.roomId c.userId (callInv_of_eq h _ rfl rfl hinv)
      split
      · exact callInv_of_eq _ _ rfl rfl h2
      · exact h2

theorem callInv_new : callInv Hub.new := by
  unfold callInv Hub.inCallRecord Hub.callCount Hub.new
  refine ⟨?_, ?_, ?_, ?_⟩
  · intro r
    simp [mlookup_nil]
  · intro r u
    simp [mlookup_nil]
  · intro r cs hcs
    rw [mlookup_nil] at hcs
    cases hcs
  · intro r cs hcs
    rw [mlookup_nil] at hcs
    cases hcs

theorem callInv_reach (h : Hub) (hr : Hub.Reach h) : callInv h := by
  induction hr with
  | new => exact callInv_new
  | add h c _ ih => exact callInv_add h c ih
  | remove h c _ ih => exact callInv_remove h c ih
  | setInCall h c b _ ih => exact callInv_setInCall h c b ih

theorem removeCall_drop (h : Hub) (r u : Nat) (hinv : callInv h)
    (hone : h.callCount r u = 1) :
    (h.removeCallLocked r u).inCallRecord r u = false
    ∧ (h.removeCallLocked r u).callCount r u = 0
    ∧ ((∀ v, 0 < h.callCount r v → v = u) →
        mlookup (h.removeCallLocked r u).callCounts r = none
        ∧ mlookup (h.removeCallLocked r u).callUsers r = none) := by
  obtain ⟨hdom, hiff, hpos, hne⟩ := hinv
  cases hcc : mlookup h.callCounts r with
  | none =>
      exfalso
      unfold Hub.callCount at hone
      rw [hcc, Option.getD_none, mlookup_nil] at hone
      cases hone
  | some counts =>
      obtain ⟨users, hcu⟩ : ∃ users, mlookup h.callUsers r = some users := by
        have hs := (hdom r).mp (by rw [hcc]; rfl)
        cases hx : mlookup h.callUsers r with
        | none => rw [hx] at hs; cases hs
        | some us => exact ⟨us, rfl⟩
      have hcval : (mlookup counts u).getD 0 = 1 := by
        unfold Hub.callCount at hone
        rw [hcc, Option.getD_some] at hone
        exact hone
      have hn : (mlookup counts u).getD 0 - 1 ≤ 0 := by omega
      unfold Hub.removeCallLocked
      rw [hcc]
      dsimp only
      rw [hcu]
      dsimp only
      rw [if_pos hn, if_pos hn]
      by_cases hemp : (mdel counts u).isEmpty = true
      · rw [if_pos hemp]
        refine ⟨?_, ?_, ?_⟩
        · unfold Hub.inCallRecord
          dsimp only
          rw [mlookup_mdel_self, Option.getD_none, mlookup_nil]
          rfl
        · unfold Hub.callCount
          dsimp only
          rw [mlookup_mdel_self, Option.getD_none, mlookup_nil]
          rfl
        · intro _
          exact ⟨mlookup_mdel_self _ _, mlookup_mdel_self _ _⟩
      · rw [if_neg hemp]
        refine ⟨?_, ?_, ?_⟩
        · unfold Hub.inCallRecord
          dsimp only
          rw [mlookup_mset_self, Option.getD_some, mlookup_mdel_self]
          rfl
        · unfold Hub.callCount
          dsimp only
          rw [mlookup_mset_self, Option.getD_some, mlookup_mdel_self]
          rfl
        · intro honly
          exfalso
          have hall : ∀ p ∈ counts, p.1 = u := by
            intro p hp
            have hs := mlookup_isSome_of_mem counts p hp
            cases hx : mlookup counts p.1 with
            | none => rw [hx] at hs; cases hs
            | some n =>
                have hposn := hpos r counts hcc p.1 n hx
                apply honly p.1
                unfold Hub.callCount
                rw [hcc, Option.getD_some, hx, Option.getD_some]
                exact hposn
          have : mdel counts u = [] := mdel_eq_nil counts u hall
          rw [this] at hemp
          exact hemp rfl

/-- C6: in every reachable hub state a user has a call-presence display
record for a room iff their reference count there is strictly positive;
attach, detach and both mark operations preserve the full call-presence
invariant; and when a count of 1 is decremented the user's record is
removed, the whole room entry disappearing from both call maps when that
user was the only one with positive count. -/
theorem callPresence_record_iff_count :
    (∀ h, Hub.Reach h → ∀ r u, h.inCallRecord r u = true ↔ 0 < h.callCount r u)
    ∧ (∀ h c b, callInv h →
        callInv (h.add c) ∧ callInv (h.remove c) ∧ callInv (h.setInCall c b))
    ∧ (∀ h r u, callInv h → h.callCount r u = 1 →
        (h.removeCallLocked r u).inCallRecord r u = false
        ∧ (h.removeCallLocked r u).callCount r u = 0
        ∧ ((∀ v, 0 < h.callCount r v → v = u) →
            mlookup (h.removeCallLocked r u).callCounts r = none
            ∧ mlookup (h.removeCallLocked r u).callUsers r = none)) := by
  refine ⟨?_, ?_, ?_⟩
  · intro h hr r u
    exact (callInv_reach h hr).2.1 r u
  · intro h c b hinv
    exact ⟨callInv_add h c hinv, callInv_remove h c hinv, callInv_setInCall h c b hinv⟩
  · intro h r u hinv hone
    exact removeCall_drop h r u hinv hone

/-- C6 witness: in the concrete reachable hub with alice in-call twice,
her record exists iff her count is positive. -/
theorem callPresence_record_iff_count_witness :
    hubAB.inCallRecord 0 1 = true ↔ 0 < hubAB.callCount 0 1 :=
  callPresence_record_iff_count.1 hubAB
    (Hub.Reach.setInCall _ clB true
      (Hub.Reach.setInCall _ clA true
        (Hub.Reach.add _ clB (Hub.Reach.add _ clA Hub.Reach.new)))) 0 1

end Talkie







